import Mathlib

/-!
Shallow embedding of the libras-websockets-poc front-end (`src/App.tsx`).

Numbers are modelled as rationals (`ℚ`): the source performs only
subtraction and minimum on landmark coordinates, which exact arithmetic
captures faithfully.
-/

namespace LibrasPoc

/-- A hand keypoint as produced by the pose-estimation model: an object with
`x`, `y`, `z` coordinates (`keypoints3D` entries). -/
structure Landmark where
  x : ℚ
  y : ℚ
  z : ℚ
deriving DecidableEq

/-- `Math.min(...xs)` on a spread array.  `Math.min()` of no arguments is
`Infinity`, which has no rational counterpart; inside `landmarkCoordinates`
the argument array is non-empty exactly when the landmark list is, and on the
empty list the surrounding `forEach` body never runs, so the `[]` branch is
never consulted there. -/
def jsMin : List ℚ → ℚ
  | [] => 0
  | x :: xs => xs.foldl min x

/-- `landmarkCoordinates` from `src/App.tsx` (lines 87-103): collects the
`x` and `y` coordinates, then for each landmark pushes
`landmark.x - Math.min(...coordinatesX)` and
`landmark.y - Math.min(...coordinatesY)` onto the output array.
The `Math.min` calls appear inside the loop body, as in the source. -/
def landmarkCoordinates (landmarks : List Landmark) : List ℚ :=
  let coordinatesX : List ℚ := landmarks.map (fun landmark => landmark.x)
  let coordinatesY : List ℚ := landmarks.map (fun landmark => landmark.y)
  landmarks.flatMap (fun landmark =>
    [landmark.x - jsMin coordinatesX, landmark.y - jsMin coordinatesY])

theorem landmarkCoordinates_eq (L : List Landmark) :
    landmarkCoordinates L =
      L.flatMap (fun lm =>
        [lm.x - jsMin (L.map (fun l => l.x)),
         lm.y - jsMin (L.map (fun l => l.y))]) := rfl

theorem foldl_min_le_init (xs : List ℚ) (a : ℚ) : xs.foldl min a ≤ a := by
  induction xs generalizing a with
  | nil => exact le_refl a
  | cons x xs ih =>
    calc (x :: xs).foldl min a = xs.foldl min (min a x) := rfl
    _ ≤ min a x := ih (min a x)
    _ ≤ a := min_le_left a x

theorem foldl_min_le_mem (xs : List ℚ) (a y : ℚ) (hy : y ∈ xs) :
    xs.foldl min a ≤ y := by
  induction xs generalizing a with
  | nil => cases hy
  | cons x xs ih =>
    rcases List.mem_cons.mp hy with h | h
    · subst h
      calc (y :: xs).foldl min a = xs.foldl min (min a y) := rfl
      _ ≤ min a y := foldl_min_le_init xs (min a y)
      _ ≤ y := min_le_right a y
    · exact ih (min a x) h

theorem foldl_min_choice (xs : List ℚ) (a : ℚ) :
    xs.foldl min a = a ∨ xs.foldl min a ∈ xs := by
  induction xs generalizing a with
  | nil => exact Or.inl rfl
  | cons x xs ih =>
    rcases ih (min a x) with h | h
    · rcases min_choice a x with hm | hm
      · exact Or.inl (by rw [List.foldl_cons, h, hm])
      · exact Or.inr (by rw [List.foldl_cons, h, hm]; exact List.mem_cons_self x xs)
    · exact Or.inr (List.mem_cons_of_mem x h)

theorem jsMin_le (l : List ℚ) (y : ℚ) (hy : y ∈ l) : jsMin l ≤ y := by
  cases l with
  | nil => cases hy
  | cons x xs =>
    rcases List.mem_cons.mp hy with h | h
    · subst h; exact foldl_min_le_init xs y
    · exact foldl_min_le_mem xs x y h

theorem jsMin_mem (l : List ℚ) (hl : l ≠ []) : jsMin l ∈ l := by
  cases l with
  | nil => exact absurd rfl hl
  | cons x xs =>
    have hj : jsMin (x :: xs) = xs.foldl min x := rfl
    rcases foldl_min_choice xs x with h | h
    · rw [hj, h]; exact List.mem_cons_self x xs
    · rw [hj]; exact List.mem_cons_of_mem x h

theorem foldl_min_map_add (xs : List ℚ) (a d : ℚ) :
    (xs.map (fun q => q + d)).foldl min (a + d) = xs.foldl min a + d := by
  induction xs generalizing a with
  | nil => rfl
  | cons x xs ih =>
    calc ((x :: xs).map (fun q => q + d)).foldl min (a + d)
        = (xs.map (fun q => q + d)).foldl min (min (a + d) (x + d)) := rfl
    _ = (xs.map (fun q => q + d)).foldl min (min a x + d) := by
          rw [min_add_add_right]
    _ = xs.foldl min (min a x) + d := ih (min a x)

theorem jsMin_map_add (l : List ℚ) (d : ℚ) (hl : l ≠ []) :
    jsMin (l.map (fun q => q + d)) = jsMin l + d := by
  cases l with
  | nil => exact absurd rfl hl
  | cons x xs => exact foldl_min_map_add xs x d

/-- Indexing a `bind` that emits exactly two elements per input. -/
theorem bind_pair_getElem (f g : Landmark → ℚ) (L : List Landmark) (i : ℕ) :
    (L.flatMap (fun lm => [f lm, g lm]))[2 * i]? = (L[i]?).map f ∧
    (L.flatMap (fun lm => [f lm, g lm]))[2 * i + 1]? = (L[i]?).map g := by
  induction L generalizing i with
  | nil => simp
  | cons lm L ih =>
    cases i with
    | zero => simp
    | succ n =>
      have h2 : 2 * (n + 1) = 2 * n + 1 + 1 := by ring
      have hcons : (lm :: L).flatMap (fun l => [f l, g l])
          = f lm :: g lm :: L.flatMap (fun l => [f l, g l]) := rfl
      constructor
      · rw [hcons, h2, List.getElem?_cons_succ, List.getElem?_cons_succ,
          List.getElem?_cons_succ]
        exact (ih n).1
      · rw [hcons, h2, List.getElem?_cons_succ, List.getElem?_cons_succ,
          List.getElem?_cons_succ]
        exact (ih n).2

theorem bind_pair_length (f g : Landmark → ℚ) (L : List Landmark) :
    (L.flatMap (fun lm => [f lm, g lm])).length = 2 * L.length := by
  induction L with
  | nil => rfl
  | cons lm L ih =>
    have hcons : (lm :: L).flatMap (fun l => [f l, g l])
        = f lm :: g lm :: L.flatMap (fun l => [f l, g l]) := rfl
    rw [hcons]
    simp only [List.length_cons, ih, List.length_cons]
    ring

/-- C1: for a non-empty landmark list, the output has length `2n` and entry
`2i` (resp. `2i+1`) is `landmarks[i].x` (resp. `.y`) minus the minimum `x`
(resp. `y`) over all landmarks.  The minima are characterised
order-theoretically: they are attained and bound every coordinate below. -/
theorem landmarkCoordinates_normalizes (L : List Landmark) (hL : L ≠ []) :
    ∃ mx my : ℚ,
      mx ∈ L.map (fun lm => lm.x) ∧
      my ∈ L.map (fun lm => lm.y) ∧
      (∀ lm ∈ L, mx ≤ lm.x ∧ my ≤ lm.y) ∧
      (landmarkCoordinates L).length = 2 * L.length ∧
      (∀ i : ℕ, ∀ lm : Landmark, L[i]? = some lm →
        (landmarkCoordinates L)[2 * i]? = some (lm.x - mx) ∧
        (landmarkCoordinates L)[2 * i + 1]? = some (lm.y - my)) := by
  refine ⟨jsMin (L.map (fun lm => lm.x)), jsMin (L.map (fun lm => lm.y)),
    ?_, ?_, ?_, ?_, ?_⟩
  · exact jsMin_mem _ (by simpa using hL)
  · exact jsMin_mem _ (by simpa using hL)
  · intro lm hlm
    exact ⟨jsMin_le _ _ (List.mem_map_of_mem _ hlm),
      jsMin_le _ _ (List.mem_map_of_mem _ hlm)⟩
  · rw [landmarkCoordinates_eq]
    exact bind_pair_length _ _ L
  · intro i lm hi
    have h := bind_pair_getElem
      (fun lm => lm.x - jsMin (L.map (fun l => l.x)))
      (fun lm => lm.y - jsMin (L.map (fun l => l.y))) L i
    rw [landmarkCoordinates_eq]
    constructor
    · rw [h.1, hi]; rfl
    · rw [h.2, hi]; rfl

theorem landmarkCoordinates_normalizes_witness :
    ([⟨1, 2, 0⟩, ⟨0, 5, 3⟩] : List Landmark) ≠ [] ∧
    (∃ mx my : ℚ,
      mx ∈ ([⟨1, 2, 0⟩, ⟨0, 5, 3⟩] : List Landmark).map (fun lm => lm.x) ∧
      my ∈ ([⟨1, 2, 0⟩, ⟨0, 5, 3⟩] : List Landmark).map (fun lm => lm.y) ∧
      (∀ lm ∈ ([⟨1, 2, 0⟩, ⟨0, 5, 3⟩] : List Landmark), mx ≤ lm.x ∧ my ≤ lm.y) ∧
      (landmarkCoordinates [⟨1, 2, 0⟩, ⟨0, 5, 3⟩]).length
        = 2 * ([⟨1, 2, 0⟩, ⟨0, 5, 3⟩] : List Landmark).length ∧
      (∀ i : ℕ, ∀ lm : Landmark,
        ([⟨1, 2, 0⟩, ⟨0, 5, 3⟩] : List Landmark)[i]? = some lm →
        (landmarkCoordinates [⟨1, 2, 0⟩, ⟨0, 5, 3⟩])[2 * i]? = some (lm.x - mx) ∧
        (landmarkCoordinates [⟨1, 2, 0⟩, ⟨0, 5, 3⟩])[2 * i + 1]? = some (lm.y - my))) :=
  ⟨by decide, landmarkCoordinates_normalizes [⟨1, 2, 0⟩, ⟨0, 5, 3⟩] (by decide)⟩

/-- Adding the same offsets `dx`, `dy` to every landmark, as a translation of
the whole hand. -/
def translateLandmark (dx dy : ℚ) (lm : Landmark) : Landmark :=
  ⟨lm.x + dx, lm.y + dy, lm.z⟩

theorem flatMap_map_comp (t : Landmark → Landmark) (f : Landmark → List ℚ)
    (L : List Landmark) :
    (L.map t).flatMap f = L.flatMap (fun lm => f (t lm)) := by
  induction L with
  | nil => rfl
  | cons lm L ih => simp only [List.map_cons, List.flatMap_cons, ih]

/-- C2: `landmarkCoordinates` is invariant under translating every landmark
by the same `(dx, dy)` offset. -/
theorem landmarkCoordinates_translation_invariant (L : List Landmark)
    (dx dy : ℚ) (hL : L ≠ []) :
    landmarkCoordinates (L.map (translateLandmark dx dy)) =
      landmarkCoordinates L := by
  have hx : (L.map (translateLandmark dx dy)).map (fun l => l.x)
      = (L.map (fun l => l.x)).map (fun q => q + dx) := by
    simp only [List.map_map]; rfl
  have hy : (L.map (translateLandmark dx dy)).map (fun l => l.y)
      = (L.map (fun l => l.y)).map (fun q => q + dy) := by
    simp only [List.map_map]; rfl
  have hmx : jsMin ((L.map (translateLandmark dx dy)).map (fun l => l.x))
      = jsMin (L.map (fun l => l.x)) + dx := by
    rw [hx]; exact jsMin_map_add _ dx (by simpa using hL)
  have hmy : jsMin ((L.map (translateLandmark dx dy)).map (fun l => l.y))
      = jsMin (L.map (fun l => l.y)) + dy := by
    rw [hy]; exact jsMin_map_add _ dy (by simpa using hL)
  rw [landmarkCoordinates_eq, landmarkCoordinates_eq,
    flatMap_map_comp (translateLandmark dx dy)]
  simp only [hmx, hmy, translateLandmark, add_sub_add_right_eq_sub]

theorem landmarkCoordinates_translation_invariant_witness :
    ([⟨1, 2, 0⟩, ⟨0, 5, 3⟩] : List Landmark) ≠ [] ∧
    landmarkCoordinates
        (([⟨1, 2, 0⟩, ⟨0, 5, 3⟩] : List Landmark).map (translateLandmark 7 (-4)))
      = landmarkCoordinates [⟨1, 2, 0⟩, ⟨0, 5, 3⟩] :=
  ⟨by decide,
    landmarkCoordinates_translation_invariant [⟨1, 2, 0⟩, ⟨0, 5, 3⟩] 7 (-4)
      (by decide)⟩

/-- C9: on a non-empty landmark list every output value is non-negative, and
some even-indexed (x-derived) entry and some odd-indexed (y-derived) entry
are exactly `0` — the landmarks attaining the minima. -/
theorem landmarkCoordinates_nonneg_zero (L : List Landmark) (hL : L ≠ []) :
    (∀ q ∈ landmarkCoordinates L, 0 ≤ q) ∧
    (∃ i : ℕ, (landmarkCoordinates L)[2 * i]? = some 0) ∧
    (∃ i : ℕ, (landmarkCoordinates L)[2 * i + 1]? = some 0) := by
  refine ⟨?_, ?_, ?_⟩
  · intro q hq
    rw [landmarkCoordinates_eq] at hq
    rcases List.mem_flatMap.mp hq with ⟨lm, hlm, hmem⟩
    rcases List.mem_cons.mp hmem with h | h
    · rw [h]
      exact sub_nonneg.mpr (jsMin_le _ _ (List.mem_map_of_mem _ hlm))
    · rw [List.mem_singleton.mp h]
      exact sub_nonneg.mpr (jsMin_le _ _ (List.mem_map_of_mem _ hlm))
  · have hmx := jsMin_mem (L.map (fun l => l.x)) (by simpa using hL)
    rcases List.mem_map.mp hmx with ⟨lm, hlm, hx⟩
    rcases List.getElem?_of_mem hlm with ⟨i, hi⟩
    refine ⟨i, ?_⟩
    have h := (bind_pair_getElem
      (fun lm => lm.x - jsMin (L.map (fun l => l.x)))
      (fun lm => lm.y - jsMin (L.map (fun l => l.y))) L i).1
    rw [landmarkCoordinates_eq, h, hi]
    show some (lm.x - jsMin (L.map (fun l => l.x))) = some 0
    rw [hx, sub_self]
  · have hmy := jsMin_mem (L.map (fun l => l.y)) (by simpa using hL)
    rcases List.mem_map.mp hmy with ⟨lm, hlm, hy⟩
    rcases List.getElem?_of_mem hlm with ⟨i, hi⟩
    refine ⟨i, ?_⟩
    have h := (bind_pair_getElem
      (fun lm => lm.x - jsMin (L.map (fun l => l.x)))
      (fun lm => lm.y - jsMin (L.map (fun l => l.y))) L i).2
    rw [landmarkCoordinates_eq, h, hi]
    show some (lm.y - jsMin (L.map (fun l => l.y))) = some 0
    rw [hy, sub_self]

theorem landmarkCoordinates_nonneg_zero_witness :
    ([⟨1, 2, 0⟩, ⟨0, 5, 3⟩] : List Landmark) ≠ [] ∧
    ((∀ q ∈ landmarkCoordinates [⟨1, 2, 0⟩, ⟨0, 5, 3⟩], 0 ≤ q) ∧
      (∃ i : ℕ, (landmarkCoordinates [⟨1, 2, 0⟩, ⟨0, 5, 3⟩])[2 * i]? = some 0) ∧
      (∃ i : ℕ, (landmarkCoordinates [⟨1, 2, 0⟩, ⟨0, 5, 3⟩])[2 * i + 1]? = some 0)) :=
  ⟨by decide, landmarkCoordinates_nonneg_zero [⟨1, 2, 0⟩, ⟨0, 5, 3⟩] (by decide)⟩

/-- A detector prediction: the model returns both 2D `keypoints` and
`keypoints3D`; `estimateHands` reads only `keypoints3D` of the first hand. -/
structure Hand where
  keypoints : List Landmark
  keypoints3D : List Landmark
deriving DecidableEq

/-- The component's React state: `result` (`useState('')`) and
`coordinates` (`useState([])`). -/
structure AppState where
  result : String
  coordinates : List ℚ
deriving DecidableEq

/-- `useState('')` and `useState([])`. -/
def initialAppState : AppState := ⟨"", []⟩

/-- Nullability of the DOM refs and of the values the handlers test:
`videoRef.current`, `canvasRef.current`, `canvas.getContext('2d')` and the
`detector` variable. -/
structure Refs where
  video : Bool
  canvas : Bool
  ctx2d : Bool
  detector : Bool
deriving DecidableEq

/-- Observable effects of the component, in program order. -/
inductive Action where
  | acquireCamera
  | setupCanvasSize
  | createDetector
  | draw
  | detect
  | normalize (output : List ℚ)
  | store (output : List ℚ)
  | send (landmarks : List ℚ)
deriving DecidableEq

/-- External stimuli: an animation frame together with the detector's
predictions for it, an incoming socket message, and a click on the
"Traduzir" button. -/
inductive Event where
  | frame (predictions : List Hand)
  | message (data : String)
  | click
deriving DecidableEq

/-- The `detectorConfig` object passed to `createDetector`
(`src/App.tsx` lines 126-131). -/
structure DetectorConfig where
  runtime : String
  modelType : String
  maxHands : ℕ
deriving DecidableEq

def detectorConfig : DetectorConfig := ⟨"mediapipe", "full", 2⟩

/-- `setupVideo`: guarded by `if (video)`, acquires the camera stream via
`getUserMedia`. -/
def setupVideo (refs : Refs) : List Action :=
  if refs.video then [Action.acquireCamera] else []

/-- `setupCanvas`: guarded by `if (video && canvas)`, sizes the canvas. -/
def setupCanvas (refs : Refs) : List Action :=
  if refs.video && refs.canvas then [Action.setupCanvasSize] else []

/-- `loadDetector`: `detector` starts `null`, so `if (!detector)` holds and
the detector is created. -/
def loadDetector : List Action := [Action.createDetector]

/-- `drawVideoInCanvas`: guarded by `if (video && canvas)` and `if (ctx)`,
clears and draws the current video frame. -/
def drawVideoInCanvas (refs : Refs) : List Action :=
  if refs.video && refs.canvas then
    if refs.ctx2d then [Action.draw] else []
  else []

/-- `estimateHands` (`src/App.tsx` lines 105-122): when the video ref is
non-null, calls `detector?.estimateHands`; `handsPredictions?.length` is
truthy only when the detector existed and returned a non-empty array; then
the first prediction's `keypoints3D` is normalized, and the result stored
via `setCoordinates` only when its length is exactly 42. -/
def estimateHands (refs : Refs) (predictions : List Hand) (s : AppState) :
    AppState × List Action :=
  if refs.video then
    if refs.detector then
      match predictions with
      | [] => (s, [Action.detect])
      | hand :: _ =>
        let landmarks := hand.keypoints3D
        let landmarksCoordinates := landmarkCoordinates landmarks
        if landmarksCoordinates.length = 42 then
          ({ s with coordinates := landmarksCoordinates },
            [Action.detect, Action.normalize landmarksCoordinates,
              Action.store landmarksCoordinates])
        else
          (s, [Action.detect, Action.normalize landmarksCoordinates])
    else (s, [])
  else (s, [])

/-- `handleVideoFrame`: draws the frame, runs `estimateHands`, and
unconditionally re-schedules itself through `requestAnimationFrame` — the
trailing `Bool` records that the re-scheduling happened. -/
def handleVideoFrame (refs : Refs) (predictions : List Hand) (s : AppState) :
    AppState × List Action × Bool :=
  let drawActs := drawVideoInCanvas refs
  let est := estimateHands refs predictions s
  (est.1, drawActs ++ est.2, true)

/-- `handleTranslateSignal`: `if (coordinates)` — a JS array is always
truthy, so the guarded `socket.send` is unconditional; it sends the
currently stored coordinates. -/
def handleTranslateSignal (s : AppState) : List Action :=
  [Action.send s.coordinates]

/-- `socket.onmessage`: `setResult(message.data)`. -/
def onmessage (s : AppState) (data : String) : AppState :=
  { s with result := data }

/-- The JSX `{result && <p>Resultado: {result}</p>}`: the result paragraph
is rendered exactly when `result` is a non-empty (truthy) string. -/
def rendered (s : AppState) : Option String :=
  if s.result = "" then none else some s.result

/-- One reaction of the component to a stimulus. -/
def step (refs : Refs) (s : AppState) : Event → AppState × List Action
  | Event.frame predictions =>
    let r := handleVideoFrame refs predictions s
    (r.1, r.2.1)
  | Event.message data => (onmessage s data, [])
  | Event.click => (s, handleTranslateSignal s)

/-- Reacting to a whole event script, accumulating the emitted actions. -/
def run (refs : Refs) : AppState → List Event → AppState × List Action
  | s, [] => (s, [])
  | s, e :: es =>
    let r := step refs s e
    let rest := run refs r.1 es
    (rest.1, r.2 ++ rest.2)

/-- `init`: `await setupVideo(); setupCanvas(); await loadDetector();
handleVideoFrame()` — the set-up actions, in program order. -/
def initActions (refs : Refs) : List Action :=
  setupVideo refs ++ setupCanvas refs ++ loadDetector

/-- The whole app run after `init`: state and actions of the event script,
starting from the initial state. -/
def appRun (refs : Refs) (events : List Event) : AppState × List Action :=
  run refs initialAppState events

/-- The complete observable action trace: set-up first, then the events'
actions (each `Event.frame` covering one `handleVideoFrame` iteration). -/
def appTrace (refs : Refs) (events : List Event) : List Action :=
  initActions refs ++ (appRun refs events).2

def isSend : Action → Bool
  | Action.send _ => true
  | _ => false

def isStore : Action → Bool
  | Action.store _ => true
  | _ => false

def isNormalize : Action → Bool
  | Action.normalize _ => true
  | _ => false

/-- C5: an incoming socket message sets `result` to exactly the message's
data, and a non-empty result is rendered. -/
theorem onmessage_sets_result_and_renders (refs : Refs) (s : AppState)
    (d : String) :
    (step refs s (Event.message d)).1.result = d ∧
    (d ≠ "" → rendered (step refs s (Event.message d)).1 = some d) := by
  refine ⟨rfl, fun hd => ?_⟩
  simp [step, onmessage, rendered, hd]

theorem onmessage_sets_result_and_renders_witness :
    (step ⟨true, true, true, true⟩ initialAppState
      (Event.message "sinal")).1.result = "sinal" ∧
    rendered (step ⟨true, true, true, true⟩ initialAppState
      (Event.message "sinal")).1 = some "sinal" :=
  ⟨(onmessage_sets_result_and_renders ⟨true, true, true, true⟩
      initialAppState "sinal").1,
   (onmessage_sets_result_and_renders ⟨true, true, true, true⟩
      initialAppState "sinal").2 (by decide)⟩

/-- C6: when the video ref is non-null and the detector was created, every
`handleVideoFrame` iteration calls the detector, and the iteration always
re-schedules itself via `requestAnimationFrame`. -/
theorem handleVideoFrame_detects_and_reschedules (refs : Refs)
    (predictions : List Hand) (s : AppState)
    (hv : refs.video = true) (hd : refs.detector = true) :
    Action.detect ∈ (handleVideoFrame refs predictions s).2.1 ∧
    (handleVideoFrame refs predictions s).2.2 = true := by
  refine ⟨?_, rfl⟩
  have hdet : Action.detect ∈ (estimateHands refs predictions s).2 := by
    cases predictions with
    | nil => simp [estimateHands, hv, hd]
    | cons h t =>
      by_cases hlen : (landmarkCoordinates h.keypoints3D).length = 42 <;>
        simp [estimateHands, hv, hd, hlen]
  simp only [handleVideoFrame]
  exact List.mem_append_right _ hdet

theorem handleVideoFrame_detects_and_reschedules_witness :
    Action.detect ∈
      (handleVideoFrame ⟨true, true, true, true⟩ [] initialAppState).2.1 ∧
    (handleVideoFrame ⟨true, true, true, true⟩ [] initialAppState).2.2 = true :=
  handleVideoFrame_detects_and_reschedules ⟨true, true, true, true⟩ []
    initialAppState rfl rfl

/-- C8: `setCoordinates` fires only when the normalized output has length
exactly 42; a detection whose normalized output has any other length leaves
the state unchanged. -/
theorem estimateHands_stores_only_42 (refs : Refs) (predictions : List Hand)
    (s : AppState) :
    ((estimateHands refs predictions s).1.coordinates = s.coordinates ∨
      ∃ h : Hand, predictions.head? = some h ∧
        (landmarkCoordinates h.keypoints3D).length = 42 ∧
        (estimateHands refs predictions s).1.coordinates
          = landmarkCoordinates h.keypoints3D) ∧
    (∀ (h : Hand) (rest : List Hand), predictions = h :: rest →
      (landmarkCoordinates h.keypoints3D).length ≠ 42 →
      (estimateHands refs predictions s).1 = s) := by
  constructor
  · by_cases hv : refs.video = true
    · by_cases hd : refs.detector = true
      · cases predictions with
        | nil => exact Or.inl (by simp [estimateHands, hv, hd])
        | cons h rest =>
          by_cases hlen : (landmarkCoordinates h.keypoints3D).length = 42
          · exact Or.inr ⟨h, rfl, hlen, by simp [estimateHands, hv, hd, hlen]⟩
          · exact Or.inl (by simp [estimateHands, hv, hd, hlen])
      · exact Or.inl (by simp [estimateHands, hv, hd])
    · exact Or.inl (by simp [estimateHands, hv])
  · intro h rest hp hlen
    subst hp
    by_cases hv : refs.video = true <;> by_cases hd : refs.detector = true <;>
      simp [estimateHands, hv, hd, hlen]

theorem estimateHands_stores_only_42_witness :
    (estimateHands ⟨true, true, true, true⟩ [⟨[], [⟨1, 2, 3⟩]⟩]
      initialAppState).1 = initialAppState :=
  (estimateHands_stores_only_42 ⟨true, true, true, true⟩ [⟨[], [⟨1, 2, 3⟩]⟩]
      initialAppState).2 ⟨[], [⟨1, 2, 3⟩]⟩ [] rfl (by decide)

/-- C10: the detector is configured with `maxHands: 2`, yet `estimateHands`
depends only on the first prediction — any further detected hands are
ignored. -/
theorem estimateHands_first_hand_only :
    detectorConfig.maxHands = 2 ∧
    ∀ (refs : Refs) (s : AppState) (h : Hand) (rest : List Hand),
      estimateHands refs (h :: rest) s = estimateHands refs [h] s :=
  ⟨rfl, fun _ _ _ _ => rfl⟩

theorem drawVideoInCanvas_no_send (refs : Refs) (a : Action)
    (ha : a ∈ drawVideoInCanvas refs) : isSend a = false := by
  unfold drawVideoInCanvas at ha
  split at ha
  · split at ha
    · rw [List.mem_singleton.mp ha]; rfl
    · cases ha
  · cases ha

theorem estimateHands_no_send (refs : Refs) (predictions : List Hand)
    (s : AppState) (a : Action)
    (ha : a ∈ (estimateHands refs predictions s).2) : isSend a = false := by
  unfold estimateHands at ha
  split at ha
  · split at ha
    · match predictions, ha with
      | [], ha =>
        rw [List.mem_singleton.mp ha]; rfl
      | hand :: _, ha =>
        simp only at ha
        split at ha <;>
        · simp only [List.mem_cons, List.mem_singleton, List.not_mem_nil,
            or_false] at ha
          rcases ha with h | h | h <;> (try rw [h]) <;> rfl
    · cases ha
  · cases ha

/-- C3 (amended): a detected hand never triggers a socket send by itself —
frame processing emits no send action; a send happens exactly when the
"Traduzir" button is clicked, and transmits the currently stored
coordinates. -/
theorem frame_never_sends_click_sends (refs : Refs) (s : AppState)
    (predictions : List Hand) :
    (step refs s (Event.frame predictions)).2.all (fun a => !isSend a) = true ∧
    (step refs s Event.click).2 = [Action.send s.coordinates] := by
  refine ⟨?_, rfl⟩
  rw [List.all_eq_true]
  intro a ha
  have hmem : a ∈ drawVideoInCanvas refs ∨
      a ∈ (estimateHands refs predictions s).2 := by
    simpa [step, handleVideoFrame] using ha
  rcases hmem with h | h
  · simp [drawVideoInCanvas_no_send refs a h]
  · simp [estimateHands_no_send refs predictions s a h]

/-- A frame with a full 21-landmark hand, as MediaPipe produces. -/
def sampleHand : Hand :=
  ⟨[], (List.range 21).map (fun i => ⟨(i : ℚ), (i : ℚ), 0⟩)⟩

/-- C3 counterexample: a frame whose detector output contains a hand (its
coordinates are even normalized and stored) produces no socket send anywhere
in the trace — detection alone never sends. -/
theorem frame_detection_without_send :
    (appTrace ⟨true, true, true, true⟩
      [Event.frame [sampleHand]]).any isStore = true ∧
    (appTrace ⟨true, true, true, true⟩
      [Event.frame [sampleHand]]).all (fun a => !isSend a) = true := by
  decide

/-- Replay of the stored-coordinates cell over an action list: `store`
actions overwrite it, everything else leaves it alone. -/
def coordsAfter (c : List ℚ) : List Action → List ℚ
  | [] => c
  | Action.store p :: rest => coordsAfter p rest
  | _ :: rest => coordsAfter c rest

/-- Every `send` in the list transmits the coordinates cell as current at
its position, `store` actions updating the cell. -/
def sendsTrack (c : List ℚ) : List Action → Prop
  | [] => True
  | Action.send p :: rest => p = c ∧ sendsTrack c rest
  | Action.store p :: rest => sendsTrack p rest
  | _ :: rest => sendsTrack c rest

theorem coordsAfter_append (c : List ℚ) (A B : List Action) :
    coordsAfter c (A ++ B) = coordsAfter (coordsAfter c A) B := by
  induction A generalizing c with
  | nil => rfl
  | cons a A ih => cases a <;> simp only [List.cons_append, coordsAfter] <;> exact ih _

theorem sendsTrack_append (c : List ℚ) (A B : List Action)
    (hA : sendsTrack c A) (hB : sendsTrack (coordsAfter c A) B) :
    sendsTrack c (A ++ B) := by
  induction A generalizing c with
  | nil => exact hB
  | cons a A ih =>
    cases a with
    | send p => exact ⟨hA.1, ih c hA.2 hB⟩
    | store p => exact ih p hA hB
    | acquireCamera => exact ih c hA hB
    | setupCanvasSize => exact ih c hA hB
    | createDetector => exact ih c hA hB
    | draw => exact ih c hA hB
    | detect => exact ih c hA hB
    | normalize p => exact ih c hA hB

theorem sendsTrack_send_getElem (tr : List Action) :
    ∀ c : List ℚ, sendsTrack c tr → ∀ (j : ℕ) (p : List ℚ),
      tr[j]? = some (Action.send p) →
      p = c ∨ ∃ i, i < j ∧ tr[i]? = some (Action.store p) := by
  induction tr with
  | nil =>
    intro c _ j p hj
    simp at hj
  | cons a tr ih =>
    intro c htrack j p hj
    cases j with
    | zero =>
      rw [List.getElem?_cons_zero] at hj
      injection hj with hj'
      subst hj'
      exact Or.inl htrack.1
    | succ n =>
      rw [List.getElem?_cons_succ] at hj
      cases a with
      | send q =>
        rcases ih c htrack.2 n p hj with h | ⟨i, hi, hig⟩
        · exact Or.inl h
        · exact Or.inr ⟨i + 1, by omega, by rwa [List.getElem?_cons_succ]⟩
      | store q =>
        rcases ih q htrack n p hj with h | ⟨i, hi, hig⟩
        · exact Or.inr ⟨0, Nat.succ_pos n,
            by rw [List.getElem?_cons_zero, h]⟩
        · exact Or.inr ⟨i + 1, by omega, by rwa [List.getElem?_cons_succ]⟩
      | acquireCamera =>
        rcases ih c htrack n p hj with h | ⟨i, hi, hig⟩
        · exact Or.inl h
        · exact Or.inr ⟨i + 1, by omega, by rwa [List.getElem?_cons_succ]⟩
      | setupCanvasSize =>
        rcases ih c htrack n p hj with h | ⟨i, hi, hig⟩
        · exact Or.inl h
        · exact Or.inr ⟨i + 1, by omega, by rwa [List.getElem?_cons_succ]⟩
      | createDetector =>
        rcases ih c htrack n p hj with h | ⟨i, hi, hig⟩
        · exact Or.inl h
        · exact Or.inr ⟨i + 1, by omega, by rwa [List.getElem?_cons_succ]⟩
      | draw =>
        rcases ih c htrack n p hj with h | ⟨i, hi, hig⟩
        · exact Or.inl h
        · exact Or.inr ⟨i + 1, by omega, by rwa [List.getElem?_cons_succ]⟩
      | detect =>
        rcases ih c htrack n p hj with h | ⟨i, hi, hig⟩
        · exact Or.inl h
        · exact Or.inr ⟨i + 1, by omega, by rwa [List.getElem?_cons_succ]⟩
      | normalize q =>
        rcases ih c htrack n p hj with h | ⟨i, hi, hig⟩
        · exact Or.inl h
        · exact Or.inr ⟨i + 1, by omega, by rwa [List.getElem?_cons_succ]⟩

theorem drawVideoInCanvas_mem (refs : Refs) (a : Action)
    (ha : a ∈ drawVideoInCanvas refs) : a = Action.draw := by
  unfold drawVideoInCanvas at ha
  split at ha
  · split at ha
    · exact List.mem_singleton.mp ha
    · cases ha
  · cases ha

theorem estimateHands_sendsTrack (refs : Refs) (predictions : List Hand)
    (s : AppState) :
    sendsTrack s.coordinates (estimateHands refs predictions s).2 ∧
    coordsAfter s.coordinates (estimateHands refs predictions s).2
      = (estimateHands refs predictions s).1.coordinates := by
  by_cases hv : refs.video = true
  · by_cases hd : refs.detector = true
    · cases predictions with
      | nil =>
        refine ⟨?_, ?_⟩ <;>
          simp [estimateHands, hv, hd, sendsTrack, coordsAfter]
      | cons hand rest =>
        by_cases hlen : (landmarkCoordinates hand.keypoints3D).length = 42 <;>
          refine ⟨?_, ?_⟩ <;>
          simp [estimateHands, hv, hd, hlen, sendsTrack, coordsAfter]
    · refine ⟨?_, ?_⟩ <;>
        simp [estimateHands, hv, hd, sendsTrack, coordsAfter]
  · refine ⟨?_, ?_⟩ <;> simp [estimateHands, hv, sendsTrack, coordsAfter]

theorem step_sendsTrack (refs : Refs) (s : AppState) (e : Event) :
    sendsTrack s.coordinates (step refs s e).2 ∧
    coordsAfter s.coordinates (step refs s e).2
      = (step refs s e).1.coordinates := by
  cases e with
  | message d => exact ⟨trivial, rfl⟩
  | click => exact ⟨⟨rfl, trivial⟩, rfl⟩
  | frame predictions =>
    have hdraw : ∀ c : List ℚ, sendsTrack c (drawVideoInCanvas refs) ∧
        coordsAfter c (drawVideoInCanvas refs) = c := by
      intro c
      unfold drawVideoInCanvas
      split
      · split
        · exact ⟨trivial, rfl⟩
        · exact ⟨trivial, rfl⟩
      · exact ⟨trivial, rfl⟩
    have hest := estimateHands_sendsTrack refs predictions s
    constructor
    · show sendsTrack s.coordinates
        (drawVideoInCanvas refs ++ (estimateHands refs predictions s).2)
      refine sendsTrack_append _ _ _ (hdraw s.coordinates).1 ?_
      rw [(hdraw s.coordinates).2]
      exact hest.1
    · show coordsAfter s.coordinates
        (drawVideoInCanvas refs ++ (estimateHands refs predictions s).2)
        = (estimateHands refs predictions s).1.coordinates
      rw [coordsAfter_append, (hdraw s.coordinates).2, hest.2]

theorem run_sendsTrack (refs : Refs) (events : List Event) :
    ∀ s : AppState, sendsTrack s.coordinates (run refs s events).2 ∧
      coordsAfter s.coordinates (run refs s events).2
        = (run refs s events).1.coordinates := by
  induction events with
  | nil => intro s; exact ⟨trivial, rfl⟩
  | cons e es ih =>
    intro s
    have hstep := step_sendsTrack refs s e
    have hrest := ih (step refs s e).1
    constructor
    · show sendsTrack s.coordinates
        ((step refs s e).2 ++ (run refs (step refs s e).1 es).2)
      refine sendsTrack_append _ _ _ hstep.1 ?_
      rw [hstep.2]
      exact hrest.1
    · show coordsAfter s.coordinates
        ((step refs s e).2 ++ (run refs (step refs s e).1 es).2)
        = (run refs (step refs s e).1 es).1.coordinates
      rw [coordsAfter_append, hstep.2, hrest.2]

theorem initActions_sendsTrack (refs : Refs) (c : List ℚ) :
    sendsTrack c (initActions refs) ∧ coordsAfter c (initActions refs) = c := by
  rcases refs with ⟨v, cv, x, d⟩
  cases v <;> cases cv <;> exact ⟨trivial, rfl⟩

theorem appTrace_sendsTrack (refs : Refs) (events : List Event) :
    sendsTrack ([] : List ℚ) (appTrace refs events) := by
  show sendsTrack ([] : List ℚ) (initActions refs ++ (appRun refs events).2)
  refine sendsTrack_append _ _ _ (initActions_sendsTrack refs _).1 ?_
  rw [(initActions_sendsTrack refs _).2]
  exact (run_sendsTrack refs events initialAppState).1

theorem estimateHands_store_mem (refs : Refs) (predictions : List Hand)
    (s : AppState) (p : List ℚ)
    (hp : Action.store p ∈ (estimateHands refs predictions s).2) :
    ∃ hand : Hand, p = landmarkCoordinates hand.keypoints3D ∧
      p.length = 42 := by
  by_cases hv : refs.video = true
  · by_cases hd : refs.detector = true
    · cases predictions with
      | nil => simp [estimateHands, hv, hd] at hp
      | cons hand rest =>
        by_cases hlen : (landmarkCoordinates hand.keypoints3D).length = 42
        · simp [estimateHands, hv, hd, hlen] at hp
          exact ⟨hand, hp, by rw [hp]; exact hlen⟩
        · simp [estimateHands, hv, hd, hlen] at hp
    · simp [estimateHands, hv, hd] at hp
  · simp [estimateHands, hv] at hp

theorem step_store_mem (refs : Refs) (s : AppState) (e : Event) (p : List ℚ)
    (hp : Action.store p ∈ (step refs s e).2) :
    ∃ hand : Hand, p = landmarkCoordinates hand.keypoints3D ∧
      p.length = 42 := by
  cases e with
  | message d => simp [step] at hp
  | click => simp [step, handleTranslateSignal] at hp
  | frame predictions =>
    have hmem : Action.store p ∈ drawVideoInCanvas refs ∨
        Action.store p ∈ (estimateHands refs predictions s).2 := by
      simpa [step, handleVideoFrame] using hp
    rcases hmem with h | h
    · exact absurd (drawVideoInCanvas_mem refs _ h) (by simp)
    · exact estimateHands_store_mem refs predictions s p h

theorem run_store_mem (refs : Refs) (events : List Event) :
    ∀ (s : AppState) (p : List ℚ),
      Action.store p ∈ (run refs s events).2 →
      ∃ hand : Hand, p = landmarkCoordinates hand.keypoints3D ∧
        p.length = 42 := by
  induction events with
  | nil =>
    intro s p hp
    simp [run] at hp
  | cons e es ih =>
    intro s p hp
    have hmem : Action.store p ∈ (step refs s e).2 ∨
        Action.store p ∈ (run refs (step refs s e).1 es).2 := by
      simpa [run, List.mem_append] using hp
    rcases hmem with h | h
    · exact step_store_mem refs s e p h
    · exact ih _ p h

theorem initActions_mem (refs : Refs) (a : Action) (ha : a ∈ initActions refs) :
    a = Action.acquireCamera ∨ a = Action.setupCanvasSize ∨
      a = Action.createDetector := by
  rcases refs with ⟨v, cv, x, d⟩
  cases v <;> cases cv <;>
    simp [initActions, setupVideo, setupCanvas, loadDetector] at ha <;> tauto

theorem appTrace_store_mem (refs : Refs) (events : List Event) (p : List ℚ)
    (hp : Action.store p ∈ appTrace refs events) :
    ∃ hand : Hand, p = landmarkCoordinates hand.keypoints3D ∧
      p.length = 42 := by
  have hp' : Action.store p ∈ initActions refs ++ (appRun refs events).2 := hp
  rcases List.mem_append.mp hp' with h | h
  · rcases initActions_mem refs _ h with h1 | h1 | h1 <;>
      exact Action.noConfusion h1
  · exact run_store_mem refs events initialAppState p h

/-- C7 (amended): every payload sent over the socket is either the initial
empty coordinates list (no hand stored yet) or a value stored earlier in the
trace, which is an output of `landmarkCoordinates` of length 42 — raw
detector keypoints are never transmitted. -/
theorem handleTranslateSignal_sends_stored (refs : Refs) (events : List Event)
    (j : ℕ) (p : List ℚ)
    (hj : (appTrace refs events)[j]? = some (Action.send p)) :
    p = [] ∨
      ((∃ i, i < j ∧ (appTrace refs events)[i]? = some (Action.store p)) ∧
        ∃ hand : Hand, p = landmarkCoordinates hand.keypoints3D ∧
          p.length = 42) := by
  rcases sendsTrack_send_getElem (appTrace refs events) []
      (appTrace_sendsTrack refs events) j p hj with h | ⟨i, hi, hig⟩
  · exact Or.inl h
  · exact Or.inr ⟨⟨i, hi, hig⟩,
      appTrace_store_mem refs events p (List.getElem?_mem hig)⟩

theorem handleTranslateSignal_sends_stored_witness :
    (appTrace ⟨true, true, true, true⟩
        [Event.frame [sampleHand], Event.click])[7]?
      = some (Action.send (landmarkCoordinates sampleHand.keypoints3D)) ∧
    (landmarkCoordinates sampleHand.keypoints3D = [] ∨
      ((∃ i, i < 7 ∧ (appTrace ⟨true, true, true, true⟩
          [Event.frame [sampleHand], Event.click])[i]?
            = some (Action.store (landmarkCoordinates sampleHand.keypoints3D))) ∧
        ∃ hand : Hand, landmarkCoordinates sampleHand.keypoints3D
            = landmarkCoordinates hand.keypoints3D ∧
          (landmarkCoordinates sampleHand.keypoints3D).length = 42)) :=
  ⟨rfl, handleTranslateSignal_sends_stored ⟨true, true, true, true⟩
    [Event.frame [sampleHand], Event.click] 7
    (landmarkCoordinates sampleHand.keypoints3D) rfl⟩

/-- C7 counterexample: clicking "Traduzir" before any detection sends the
initial `[]` coordinates — the trace contains a send but no
`landmarkCoordinates` production (no normalize, no store) at all. -/
theorem click_sends_unnormalized_initial :
    appTrace ⟨true, true, true, true⟩ [Event.click]
      = [Action.acquireCamera, Action.setupCanvasSize, Action.createDetector,
          Action.send []] ∧
    (appTrace ⟨true, true, true, true⟩ [Event.click]).all
      (fun a => !isNormalize a && !isStore a) = true := by
  decide

theorem before_of_append (A B : List Action) (a b : Action)
    (ha : a ∈ A) (hb : b ∉ A) (j : ℕ) (hj : (A ++ B)[j]? = some b) :
    ∃ i, i < j ∧ (A ++ B)[i]? = some a := by
  rcases List.getElem?_of_mem ha with ⟨i0, hi0⟩
  have hi0lt : i0 < A.length := by
    by_contra hge
    rw [List.getElem?_eq_none (Nat.le_of_not_lt hge)] at hi0
    cases hi0
  have hjge : A.length ≤ j := by
    by_contra hlt
    rw [List.getElem?_append_left (Nat.lt_of_not_le hlt)] at hj
    exact hb (List.getElem?_mem hj)
  exact ⟨i0, lt_of_lt_of_le hi0lt hjge,
    by rw [List.getElem?_append_left hi0lt]; exact hi0⟩

theorem acquireCamera_mem_initActions (refs : Refs) (hv : refs.video = true) :
    Action.acquireCamera ∈ initActions refs := by
  simp [initActions, setupVideo, hv]

theorem createDetector_mem_initActions (refs : Refs) :
    Action.createDetector ∈ initActions refs := by
  simp [initActions, loadDetector]

theorem draw_not_mem_initActions (refs : Refs) :
    Action.draw ∉ initActions refs := fun h => by
  rcases initActions_mem refs _ h with h1 | h1 | h1 <;> exact Action.noConfusion h1

theorem detect_not_mem_initActions (refs : Refs) :
    Action.detect ∉ initActions refs := fun h => by
  rcases initActions_mem refs _ h with h1 | h1 | h1 <;> exact Action.noConfusion h1

theorem handleVideoFrame_draw_then_detect (refs : Refs)
    (predictions : List Hand) (s : AppState) (hv : refs.video = true)
    (hc : refs.canvas = true) (hx : refs.ctx2d = true)
    (hd : refs.detector = true) :
    ∃ rest : List Action, (handleVideoFrame refs predictions s).2.1
      = Action.draw :: Action.detect :: rest := by
  have hdraw : drawVideoInCanvas refs = [Action.draw] := by
    simp [drawVideoInCanvas, hv, hc, hx]
  cases predictions with
  | nil =>
    refine ⟨[], ?_⟩
    show drawVideoInCanvas refs ++ (estimateHands refs [] s).2 = _
    rw [hdraw]
    simp [estimateHands, hv, hd]
  | cons hand rest =>
    by_cases hlen : (landmarkCoordinates hand.keypoints3D).length = 42
    · refine ⟨[Action.normalize (landmarkCoordinates hand.keypoints3D),
        Action.store (landmarkCoordinates hand.keypoints3D)], ?_⟩
      show drawVideoInCanvas refs ++ (estimateHands refs (hand :: rest) s).2 = _
      rw [hdraw]
      simp [estimateHands, hv, hd, hlen]
    · refine ⟨[Action.normalize (landmarkCoordinates hand.keypoints3D)], ?_⟩
      show drawVideoInCanvas refs ++ (estimateHands refs (hand :: rest) s).2 = _
      rw [hdraw]
      simp [estimateHands, hv, hd, hlen]

theorem estimateHands_result (refs : Refs) (predictions : List Hand)
    (s : AppState) :
    (estimateHands refs predictions s).1.result = s.result := by
  by_cases hv : refs.video = true
  · by_cases hd : refs.detector = true
    · cases predictions with
      | nil => simp [estimateHands, hv, hd]
      | cons hand rest =>
        by_cases hlen : (landmarkCoordinates hand.keypoints3D).length = 42 <;>
          simp [estimateHands, hv, hd, hlen]
    · simp [estimateHands, hv, hd]
  · simp [estimateHands, hv]

theorem run_result_provenance (refs : Refs) (events : List Event) :
    ∀ s : AppState, (run refs s events).1.result = s.result ∨
      Event.message ((run refs s events).1.result) ∈ events := by
  induction events with
  | nil => intro s; exact Or.inl rfl
  | cons e es ih =>
    intro s
    rcases ih (step refs s e).1 with h | h
    · cases e with
      | frame predictions =>
        refine Or.inl ?_
        show (run refs (step refs s (Event.frame predictions)).1 es).1.result
          = s.result
        rw [h]
        exact estimateHands_result refs predictions s
      | message d =>
        refine Or.inr ?_
        show Event.message
            ((run refs (step refs s (Event.message d)).1 es).1.result)
          ∈ Event.message d :: es
        rw [h]
        exact List.mem_cons_self _ _
      | click =>
        refine Or.inl ?_
        show (run refs (step refs s Event.click).1 es).1.result = s.result
        rw [h]
        rfl
    · exact Or.inr (List.mem_cons_of_mem _ h)

/-- C4 (amended): the pipeline order holds, with one amendment to the
normalize-before-send clause: the camera is acquired before any draw; the
detector is created before any detector call; within each frame the draw
precedes the detector call; every send transmits either the initial empty
coordinates (never normalized, when the button is clicked before any
successful detection) or coordinates stored by an earlier normalization;
and the result is displayed only after a socket message delivered it. -/
theorem appTrace_pipeline_order (refs : Refs) (events : List Event)
    (hv : refs.video = true) (hc : refs.canvas = true)
    (hx : refs.ctx2d = true) (hd : refs.detector = true) :
    (∀ j : ℕ, (appTrace refs events)[j]? = some Action.draw →
      ∃ i, i < j ∧ (appTrace refs events)[i]? = some Action.acquireCamera) ∧
    (∀ j : ℕ, (appTrace refs events)[j]? = some Action.detect →
      ∃ i, i < j ∧ (appTrace refs events)[i]? = some Action.createDetector) ∧
    (∀ (predictions : List Hand) (s : AppState), ∃ rest : List Action,
      (handleVideoFrame refs predictions s).2.1
        = Action.draw :: Action.detect :: rest) ∧
    (∀ (j : ℕ) (p : List ℚ),
      (appTrace refs events)[j]? = some (Action.send p) →
      p = [] ∨ ∃ i, i < j ∧ (appTrace refs events)[i]? = some (Action.store p)) ∧
    (∀ r : String, rendered (appRun refs events).1 = some r →
      Event.message r ∈ events) := by
  refine ⟨?_, ?_, ?_, ?_, ?_⟩
  · intro j hj
    exact before_of_append (initActions refs) (appRun refs events).2 _ _
      (acquireCamera_mem_initActions refs hv) (draw_not_mem_initActions refs)
      j hj
  · intro j hj
    exact before_of_append (initActions refs) (appRun refs events).2 _ _
      (createDetector_mem_initActions refs) (detect_not_mem_initActions refs)
      j hj
  · intro predictions s
    exact handleVideoFrame_draw_then_detect refs predictions s hv hc hx hd
  · intro j p hj
    rcases sendsTrack_send_getElem (appTrace refs events) []
        (appTrace_sendsTrack refs events) j p hj with h | hss
    · exact Or.inl h
    · exact Or.inr hss
  · intro r hr
    unfold rendered at hr
    split at hr
    · cases hr
    · rename_i hne
      injection hr with hr'
      subst hr'
      rcases run_result_provenance refs events initialAppState with h | h
      · exact absurd h hne
      · exact h

theorem appTrace_pipeline_order_witness :
    (∀ j : ℕ, (appTrace ⟨true, true, true, true⟩ [Event.click])[j]?
        = some Action.draw →
      ∃ i, i < j ∧ (appTrace ⟨true, true, true, true⟩ [Event.click])[i]?
        = some Action.acquireCamera) ∧
    (∀ j : ℕ, (appTrace ⟨true, true, true, true⟩ [Event.click])[j]?
        = some Action.detect →
      ∃ i, i < j ∧ (appTrace ⟨true, true, true, true⟩ [Event.click])[i]?
        = some Action.createDetector) ∧
    (∀ (predictions : List Hand) (s : AppState), ∃ rest : List Action,
      (handleVideoFrame ⟨true, true, true, true⟩ predictions s).2.1
        = Action.draw :: Action.detect :: rest) ∧
    (∀ (j : ℕ) (p : List ℚ),
      (appTrace ⟨true, true, true, true⟩ [Event.click])[j]?
        = some (Action.send p) →
      p = [] ∨ ∃ i, i < j ∧ (appTrace ⟨true, true, true, true⟩
        [Event.click])[i]? = some (Action.store p)) ∧
    (∀ r : String,
      rendered (appRun ⟨true, true, true, true⟩ [Event.click]).1 = some r →
      Event.message r ∈ [Event.click]) :=
  appTrace_pipeline_order ⟨true, true, true, true⟩ [Event.click]
    rfl rfl rfl rfl

/-- C4 counterexample: when the button is clicked before any detection, the
trace contains a socket send although no coordinate normalization occurs
anywhere in it — the claim's "normalization before any send" clause fails. -/
theorem pipeline_send_before_normalization :
    (appTrace ⟨true, true, true, true⟩ [Event.click]).any isSend = true ∧
    (appTrace ⟨true, true, true, true⟩ [Event.click]).any isNormalize
      = false := by
  decide

end LibrasPoc
